import Mathlib

set_option maxRecDepth 8000

/-!
Shallow embedding of the tullkodsgenerator repository (tullkod_model.py).

Characters are modelled at the ASCII level: `Char.isDigit` stands for the
regex class of digits and `isWordChar` for the regex word-character class
(all inputs of interest here are ASCII).
-/

namespace Tullkod

/-- The sentinel returned by `normalize_code` when no code can be extracted. -/
def UNKNOWN : String := "UNKNOWN"

/-- Regex word character: ASCII letter, decimal digit or underscore. -/
def isWordChar (c : Char) : Bool := c.isAlphanum || c == '_'

/-- Python `re.sub` with the non-digit class and empty replacement:
keep only the digit characters of the text. -/
def stripNonDigits (l : List Char) : List Char := l.filter Char.isDigit

/-- Python `str.isdigit`: nonempty and all characters are digits. -/
def pyIsDigit (l : List Char) : Bool := !l.isEmpty && l.all Char.isDigit

/-- The window of (up to) ten characters of `l` starting at index `i`. -/
def seg10 (l : List Char) (i : Nat) : List Char := (l.drop i).take 10

/-- True when the optional character is absent (string boundary) or is
not a word character: the word-boundary side condition of the regex. -/
def nonWordOpt : Option Char → Bool
  | none => true
  | some c => !isWordChar c

/-- True when the optional character is absent (string boundary) or is
not a digit: the boundary notion used by the specification text. -/
def nonDigitOpt : Option Char → Bool
  | none => true
  | some c => !c.isDigit

/-- The regex of `normalize_code` (ten digits between word boundaries)
matches `l` at start index `i`: ten digit characters, preceded and followed
by a non-word character or the string boundary. -/
def matchTenAt (l : List Char) (i : Nat) : Bool :=
  decide ((seg10 l i).length = 10) && (seg10 l i).all Char.isDigit &&
  (decide (i = 0) || nonWordOpt (l.get? (i - 1))) &&
  nonWordOpt (l.get? (i + 10))

/-- A maximal run of exactly ten digits starting at `i`: ten digit
characters bounded on each side by a non-digit character or the string
boundary.  This is the (weaker) boundary notion the specification uses. -/
def digitRunAt (l : List Char) (i : Nat) : Bool :=
  decide ((seg10 l i).length = 10) && (seg10 l i).all Char.isDigit &&
  (decide (i = 0) || nonDigitOpt (l.get? (i - 1))) &&
  nonDigitOpt (l.get? (i + 10))

/-- Some maximal run of exactly ten digits occurs somewhere in `l`. -/
def hasTenRun (l : List Char) : Bool :=
  (List.range l.length).any (fun i => digitRunAt l i)

/-- First index at or after `i`, within `fuel` steps, at which `p` holds. -/
def findFirstAux (p : Nat → Bool) : Nat → Nat → Option Nat
  | 0, _ => none
  | fuel + 1, i => if p i then some i else findFirstAux p fuel (i + 1)

/-- Start index of the leftmost match of the ten-digit regex in `l`
(the semantics of the `re.search` call in `normalize_code`). -/
def searchTen (l : List Char) : Option Nat := findFirstAux (matchTenAt l) l.length 0

/-- The regex of `normalize_code` matches somewhere in `l`. -/
def hasTenMatch (l : List Char) : Bool := (searchTen l).isSome

/-- The accepted TARIC lengths, in the descending order the source lists. -/
def taricLengths : List Nat := [10, 8, 6, 4, 2]

/-- Membership of `n` in the accepted length set. -/
def acceptLen (n : Nat) : Bool := n == 10 || n == 8 || n == 6 || n == 4 || n == 2

/-- The function normalize_code from tullkod_model.py, on an optional input text.

The source: return the sentinel on falsy input; strip non-digits; return
the sentinel if nothing remains; accept the stripped candidate whenever
its length matches one of the lengths 10, 8, 6, 4, 2 (tried in that
order); otherwise search the raw text for a ten-digit regex match between
word boundaries; otherwise accept the candidate when it is all digits of
length at most 12, and fall back to the sentinel. -/
def normalize_code : Option String → String
  | none => UNKNOWN
  | some s =>
    if s.data.isEmpty then UNKNOWN
    else if (stripNonDigits s.data).isEmpty then UNKNOWN
    else if (taricLengths.find? (fun k => (stripNonDigits s.data).length == k)).isSome then
      String.mk (stripNonDigits s.data)
    else
      match searchTen s.data with
      | some i => String.mk (seg10 s.data i)
      | none =>
        if pyIsDigit (stripNonDigits s.data) && decide ((stripNonDigits s.data).length ≤ 12) then
          String.mk (stripNonDigits s.data)
        else UNKNOWN

/-! Basic lemmas about the ingredients of `normalize_code`. -/

theorem seg10_length_iff (l : List Char) (i : Nat) :
    (seg10 l i).length = 10 ↔ i + 10 ≤ l.length := by
  simp only [seg10, List.length_take, List.length_drop]
  omega

theorem isWordChar_of_isDigit (c : Char) (h : c.isDigit = true) : isWordChar c = true := by
  simp [isWordChar, Char.isAlphanum, h]

theorem nonDigitOpt_of_nonWordOpt (o : Option Char) (h : nonWordOpt o = true) :
    nonDigitOpt o = true := by
  cases o with
  | none => rfl
  | some c =>
    simp only [nonWordOpt, Bool.not_eq_true'] at h
    simp only [nonDigitOpt, Bool.not_eq_true']
    cases hd : c.isDigit with
    | false => rfl
    | true => rw [isWordChar_of_isDigit c hd] at h; exact h

theorem matchTenAt_imp_digitRunAt (l : List Char) (i : Nat) (h : matchTenAt l i = true) :
    digitRunAt l i = true := by
  simp only [matchTenAt, Bool.and_eq_true, Bool.or_eq_true] at h
  obtain ⟨⟨⟨h1, h2⟩, h3⟩, h4⟩ := h
  simp only [digitRunAt, Bool.and_eq_true, Bool.or_eq_true]
  refine ⟨⟨⟨h1, h2⟩, ?_⟩, nonDigitOpt_of_nonWordOpt _ h4⟩
  cases h3 with
  | inl h0 => exact Or.inl h0
  | inr hw => exact Or.inr (nonDigitOpt_of_nonWordOpt _ hw)

theorem findFirstAux_eq_some (p : Nat → Bool) (fuel i j : Nat)
    (h : findFirstAux p fuel i = some j) :
    p j = true ∧ i ≤ j ∧ ∀ k, i ≤ k → k < j → p k = false := by
  induction fuel generalizing i with
  | zero => simp [findFirstAux] at h
  | succ n ih =>
    by_cases hp : p i = true
    · simp [findFirstAux, hp] at h
      subst h
      exact ⟨hp, Nat.le_refl i, fun k hk1 hk2 => absurd hk1 (Nat.not_le_of_lt hk2)⟩
    · simp [findFirstAux, hp] at h
      obtain ⟨hj, hij, hmin⟩ := ih (i + 1) h
      refine ⟨hj, Nat.le_of_succ_le hij, fun k hk1 hk2 => ?_⟩
      rcases Nat.eq_or_lt_of_le hk1 with heq | hlt
      · rw [← heq]; exact Bool.eq_false_iff.mpr hp
      · exact hmin k hlt hk2

theorem searchTen_eq_some (l : List Char) (i : Nat) (h : searchTen l = some i) :
    matchTenAt l i = true ∧ ∀ j, j < i → matchTenAt l j = false := by
  obtain ⟨hp, _, hmin⟩ := findFirstAux_eq_some (matchTenAt l) l.length 0 i h
  exact ⟨hp, fun j hj => hmin j (Nat.zero_le j) hj⟩

theorem searchTen_some_lt (l : List Char) (i : Nat) (h : searchTen l = some i) :
    i < l.length := by
  obtain ⟨hp, _⟩ := searchTen_eq_some l i h
  simp only [matchTenAt, Bool.and_eq_true] at hp
  have := (seg10_length_iff l i).mp (by exact_mod_cast of_decide_eq_true hp.1.1.1)
  omega

theorem searchTen_none_of_no_run (l : List Char) (h : hasTenRun l = false) :
    searchTen l = none := by
  cases hs : searchTen l with
  | none => rfl
  | some i =>
    exfalso
    obtain ⟨hm, _⟩ := searchTen_eq_some l i hs
    have hi := searchTen_some_lt l i hs
    have : hasTenRun l = true := by
      simp only [hasTenRun, List.any_eq_true]
      exact ⟨i, List.mem_range.mpr hi, matchTenAt_imp_digitRunAt l i hm⟩
    rw [this] at h
    exact Bool.noConfusion h

theorem find_taric_isSome (n : Nat) :
    (taricLengths.find? (fun k => n == k)).isSome = acceptLen n := by
  simp only [taricLengths, List.find?, acceptLen]
  cases h10 : n == 10 <;> cases h8 : n == 8 <;> cases h6 : n == 6 <;>
    cases h4 : n == 4 <;> cases h2 : n == 2 <;> simp [h10, h8, h6, h4, h2]

theorem stripNonDigits_all (l : List Char) :
    (stripNonDigits l).all Char.isDigit = true := by
  simp only [stripNonDigits, List.all_eq_true]
  intro c hc
  exact List.of_mem_filter hc

theorem stripNonDigits_of_all (l : List Char) (h : l.all Char.isDigit = true) :
    stripNonDigits l = l := by
  apply List.filter_eq_self.mpr
  intro a ha
  exact (List.all_eq_true.mp h) a ha

theorem stripNonDigits_ne_nil_imp (l : List Char) (h : stripNonDigits l ≠ []) :
    l ≠ [] := by
  intro hl
  rw [hl] at h
  exact h rfl

theorem matchTenAt_all_digits (l : List Char) (i : Nat)
    (hall : l.all Char.isDigit = true) (h : matchTenAt l i = true) :
    i = 0 ∧ l.length = 10 := by
  simp only [matchTenAt, Bool.and_eq_true, Bool.or_eq_true] at h
  obtain ⟨⟨⟨h1, _⟩, h3⟩, h4⟩ := h
  have hlen : i + 10 ≤ l.length := (seg10_length_iff l i).mp (of_decide_eq_true h1)
  have hzero : i = 0 := by
    cases h3 with
    | inl h0 => exact of_decide_eq_true h0
    | inr hw =>
      by_contra hne
      have hi1 : i - 1 < l.length := by omega
      have hget : l.get? (i - 1) = some (l.get ⟨i - 1, hi1⟩) := List.get?_eq_get hi1
      rw [hget] at hw
      have hd : (l.get ⟨i - 1, hi1⟩).isDigit = true :=
        (List.all_eq_true.mp hall) _ (List.get_mem l _ _)
      simp only [nonWordOpt, Bool.not_eq_true'] at hw
      rw [isWordChar_of_isDigit _ hd] at hw
      exact Bool.noConfusion hw
  refine ⟨hzero, ?_⟩
  subst hzero
  by_contra hne
  have h10lt : 10 < l.length := by omega
  have hget : l.get? 10 = some (l.get ⟨10, h10lt⟩) := List.get?_eq_get h10lt
  rw [Nat.zero_add] at h4
  rw [hget] at h4
  have hd : (l.get ⟨10, h10lt⟩).isDigit = true :=
    (List.all_eq_true.mp hall) _ (List.get_mem l _ _)
  simp only [nonWordOpt, Bool.not_eq_true'] at h4
  rw [isWordChar_of_isDigit _ hd] at h4
  exact Bool.noConfusion h4

/-- Every output of `normalize_code` is the sentinel or a nonempty list of
digit characters of length at most 12. -/
theorem normalize_shape (t : Option String) :
    normalize_code t = UNKNOWN ∨
    ∃ d : List Char, normalize_code t = String.mk d ∧ d ≠ [] ∧
      d.all Char.isDigit = true ∧ d.length ≤ 12 := by
  cases t with
  | none => exact Or.inl rfl
  | some s =>
    by_cases h0 : s.data.isEmpty = true
    · left; simp [normalize_code, h0]
    · by_cases h1 : (stripNonDigits s.data).isEmpty = true
      · left; simp [normalize_code, h0, h1]
      · have hne : stripNonDigits s.data ≠ [] := by
          intro hnil; exact h1 (by rw [hnil]; rfl)
        by_cases h2 : (taricLengths.find? (fun k => (stripNonDigits s.data).length == k)).isSome = true
        · right
          refine ⟨stripNonDigits s.data, ?_, hne, stripNonDigits_all s.data, ?_⟩
          · simp [normalize_code, h0, h1, h2]
          · rw [find_taric_isSome] at h2
            simp only [acceptLen, Bool.or_eq_true, beq_iff_eq] at h2
            omega
        · cases hs : searchTen s.data with
          | some i =>
            right
            obtain ⟨hm, _⟩ := searchTen_eq_some s.data i hs
            simp only [matchTenAt, Bool.and_eq_true] at hm
            have hlen10 : (seg10 s.data i).length = 10 := of_decide_eq_true hm.1.1.1
            refine ⟨seg10 s.data i, ?_, ?_, hm.1.1.2, ?_⟩
            · simp [normalize_code, h0, h1, h2, hs]
            · intro hnil; rw [hnil] at hlen10; simp at hlen10
            · omega
          | none =>
            by_cases h3 : (pyIsDigit (stripNonDigits s.data) &&
                decide ((stripNonDigits s.data).length ≤ 12)) = true
            · right
              refine ⟨stripNonDigits s.data, ?_, hne, stripNonDigits_all s.data, ?_⟩
              · simp [normalize_code, h0, h1, h2, hs, h3]
              · simp only [Bool.and_eq_true, decide_eq_true_eq] at h3; exact h3.2
            · left; simp [normalize_code, h0, h1, h2, hs, h3]

/-- A nonempty all-digit string of length at most 12 is a fixpoint of
`normalize_code`. -/
theorem normalize_fix (d : List Char) (hne : d ≠ []) (hd : d.all Char.isDigit = true)
    (hlen : d.length ≤ 12) :
    normalize_code (some (String.mk d)) = String.mk d := by
  have hdata : (String.mk d).data = d := rfl
  have hstrip : stripNonDigits d = d := stripNonDigits_of_all d hd
  have hempty : d.isEmpty = false := by
    cases d with
    | nil => exact absurd rfl hne
    | cons a as => rfl
  by_cases hacc : (taricLengths.find? (fun k => d.length == k)).isSome = true
  · simp [normalize_code, hdata, hstrip, hempty, hacc]
  · have hsearch : searchTen d = none := by
      cases hs : searchTen d with
      | none => rfl
      | some i =>
        exfalso
        obtain ⟨hm, _⟩ := searchTen_eq_some d i hs
        obtain ⟨hi0, hl10⟩ := matchTenAt_all_digits d i hd hm
        apply hacc
        rw [find_taric_isSome, hl10]
        rfl
    have hpy : pyIsDigit d = true := by simp [pyIsDigit, hempty, hd]
    simp [normalize_code, hdata, hstrip, hempty, hacc, hsearch, hpy, hlen]

/-- The sentinel is a fixpoint of `normalize_code`. -/
theorem normalize_unknown_fix : normalize_code (some UNKNOWN) = UNKNOWN := by decide

theorem isEmpty_false_of_ne_nil {α : Type} (l : List α) (h : l ≠ []) : l.isEmpty = false := by
  cases l with
  | nil => exact absurd rfl h
  | cons a as => rfl

/-- When the accepted-length test fails and the regex search succeeds at
index `i`, `normalize_code` returns the matched ten-character segment. -/
theorem normalize_regex_branch (s : String) (i : Nat)
    (hlen : acceptLen (stripNonDigits s.data).length = false)
    (hs : searchTen s.data = some i) :
    normalize_code (some s) = String.mk (seg10 s.data i) := by
  obtain ⟨hm, _⟩ := searchTen_eq_some s.data i hs
  simp only [matchTenAt, Bool.and_eq_true] at hm
  have hlen10 : (seg10 s.data i).length = 10 := of_decide_eq_true hm.1.1.1
  have hsub : ∀ c ∈ seg10 s.data i, c ∈ s.data := by
    intro c hc
    exact List.mem_of_mem_drop (List.mem_of_mem_take hc)
  have hne : stripNonDigits s.data ≠ [] := by
    have hseg : seg10 s.data i ≠ [] := by
      intro h; rw [h] at hlen10; simp at hlen10
    obtain ⟨c, hc⟩ := List.exists_mem_of_ne_nil _ hseg
    intro hnil
    have hcd : c.isDigit = true := (List.all_eq_true.mp hm.1.1.2) c hc
    have hmem : c ∈ stripNonDigits s.data := List.mem_filter.mpr ⟨hsub c hc, hcd⟩
    rw [hnil] at hmem
    exact List.not_mem_nil c hmem
  have h0 : s.data.isEmpty = false :=
    isEmpty_false_of_ne_nil _ (stripNonDigits_ne_nil_imp _ hne)
  have h1 : (stripNonDigits s.data).isEmpty = false := isEmpty_false_of_ne_nil _ hne
  have h2 : (taricLengths.find? (fun k => (stripNonDigits s.data).length == k)).isSome = false := by
    rw [find_taric_isSome]; exact hlen
  simp [normalize_code, h0, h1, h2, hs]

/-! Claim theorems about `normalize_code`. -/

/-- C1: for every input text (also the absent text and the empty string)
`normalize_code` returns either the sentinel or a nonempty string of
decimal digits whose length is in the accepted set or is at most 12.  The
embedding is a total Lean function, so the call always terminates and
never raises. -/
theorem C1_normalize_total_shape (t : Option String) :
    normalize_code t = UNKNOWN ∨
    (normalize_code t ≠ "" ∧ (normalize_code t).data.all Char.isDigit = true ∧
      (acceptLen (normalize_code t).length = true ∨ (normalize_code t).length ≤ 12)) := by
  rcases normalize_shape t with h | ⟨d, hd, hne, hdig, hlen⟩
  · exact Or.inl h
  · right
    rw [hd]
    refine ⟨?_, hdig, Or.inr hlen⟩
    intro hmk
    exact hne (congrArg String.data hmk)

/-- C2 is refuted: `normalize_code` accepts "123" unchanged, a non-sentinel
result of length 3, which is not in the accepted set {2, 4, 6, 8, 10}. -/
theorem C2_cex_three_digits :
    normalize_code (some "123") = "123" ∧ normalize_code (some "123") ≠ UNKNOWN ∧
      acceptLen (normalize_code (some "123")).length = false := by decide

/-- C2 amended: every non-sentinel result of `normalize_code` is a nonempty
string of decimal digits of length at most 12 (the length need not lie in
the accepted set because of the best-effort fallback). -/
theorem C2_amended_nonsentinel_shape (t : Option String)
    (h : normalize_code t ≠ UNKNOWN) :
    normalize_code t ≠ "" ∧ (normalize_code t).data.all Char.isDigit = true ∧
      1 ≤ (normalize_code t).length ∧ (normalize_code t).length ≤ 12 := by
  rcases normalize_shape t with hu | ⟨d, hd, hne, hdig, hlen⟩
  · exact absurd hu h
  · rw [hd]
    refine ⟨?_, hdig, ?_, hlen⟩
    · intro hmk
      exact hne (congrArg String.data hmk)
    · cases d with
      | nil => exact absurd rfl hne
      | cons a as => exact Nat.succ_le_succ (Nat.zero_le _)

theorem C2_amended_witness :
    normalize_code (some "3004909099") ≠ UNKNOWN ∧
    (normalize_code (some "3004909099") ≠ "" ∧
      (normalize_code (some "3004909099")).data.all Char.isDigit = true ∧
      1 ≤ (normalize_code (some "3004909099")).length ∧
      (normalize_code (some "3004909099")).length ≤ 12) :=
  ⟨by decide, C2_amended_nonsentinel_shape (some "3004909099") (by decide)⟩

/-- C5: `normalize_code` is idempotent: renormalizing any result returns
the result unchanged. -/
theorem C5_normalize_idempotent (t : Option String) :
    normalize_code (some (normalize_code t)) = normalize_code t := by
  rcases normalize_shape t with h | ⟨d, hd, hne, hdig, hlen⟩
  · rw [h]; exact normalize_unknown_fix
  · rw [hd]; exact normalize_fix d hne hdig hlen

/-- C6: when the stripped candidate is nonempty, its length is not in the
accepted set and the text has no maximal run of exactly ten digits, the
code returns the candidate when its length is at most 12 and the sentinel
otherwise. -/
theorem C6_fallback_branch (s : String) (hne : stripNonDigits s.data ≠ [])
    (hlen : acceptLen (stripNonDigits s.data).length = false)
    (hrun : hasTenRun s.data = false) :
    normalize_code (some s) =
      if (stripNonDigits s.data).length ≤ 12 then String.mk (stripNonDigits s.data)
      else UNKNOWN := by
  have h0 : s.data.isEmpty = false :=
    isEmpty_false_of_ne_nil _ (stripNonDigits_ne_nil_imp _ hne)
  have h1 : (stripNonDigits s.data).isEmpty = false := isEmpty_false_of_ne_nil _ hne
  have h2 : (taricLengths.find? (fun k => (stripNonDigits s.data).length == k)).isSome = false := by
    rw [find_taric_isSome]; exact hlen
  have hsearch := searchTen_none_of_no_run s.data hrun
  have hpy : pyIsDigit (stripNonDigits s.data) = true := by
    simp [pyIsDigit, h1, stripNonDigits_all]
  by_cases h12 : (stripNonDigits s.data).length ≤ 12
  · simp [normalize_code, h0, h1, h2, hsearch, hpy, h12]
  · simp [normalize_code, h0, h1, h2, hsearch, hpy, h12]

theorem C6_witness : normalize_code (some "12345678901234") = UNKNOWN := by
  rw [C6_fallback_branch "12345678901234" (by decide) (by decide) (by decide)]
  decide

/-- C7 is refuted: in "a1234567890b 1" the run 1234567890 is bounded by
the non-digit letters a and b, the stripped candidate has length 11, yet
the code returns the eleven-digit candidate (length 11, so not any run of
exactly ten digits), because the regex requires word boundaries and the
letters a and b are word characters. -/
theorem C7_cex_word_boundary :
    acceptLen (stripNonDigits ("a1234567890b 1" : String).data).length = false ∧
    hasTenRun ("a1234567890b 1" : String).data = true ∧
    normalize_code (some "a1234567890b 1") = "12345678901" ∧
    (normalize_code (some "a1234567890b 1")).length ≠ 10 := by decide

/-- C7 amended: the ten-digit fallback fires exactly when a ten-digit run
bounded by non-WORD characters (not merely non-digit characters) or string
boundaries exists; then the code returns such a regex match.  The concrete
example of the claim holds. -/
theorem C7_amended_regex_run :
    (∀ s : String, acceptLen (stripNonDigits s.data).length = false →
      hasTenMatch s.data = true →
      ∃ i, searchTen s.data = some i ∧ matchTenAt s.data i = true ∧
        normalize_code (some s) = String.mk (seg10 s.data i)) ∧
    normalize_code (some "The code is 3004909099.") = "3004909099" := by
  refine ⟨?_, by decide⟩
  intro s hlen hm
  simp only [hasTenMatch, Option.isSome_iff_exists] at hm
  obtain ⟨i, hs⟩ := hm
  exact ⟨i, hs, (searchTen_eq_some _ _ hs).1, normalize_regex_branch s i hlen hs⟩

theorem C7_amended_witness : normalize_code (some "x 1234567890 yz 1") = "1234567890" := by
  obtain ⟨i, hsi, _hm, hres⟩ :=
    C7_amended_regex_run.1 "x 1234567890 yz 1" (by decide) (by decide)
  have h2 : searchTen ("x 1234567890 yz 1" : String).data = some 2 := by decide
  rw [hsi] at h2
  injection h2 with hi
  subst hi
  rw [hres]
  decide

/-- C8: the descending loop over the lengths 10, 8, 6, 4, 2 is a membership
test on the accepted set, and a stripped candidate of accepted length is
returned unchanged; concretely on the ten-digit input. -/
theorem C8_accepted_length_passthrough :
    (∀ n : Nat, (taricLengths.find? (fun k => n == k)).isSome = acceptLen n) ∧
    (∀ s : String, acceptLen (stripNonDigits s.data).length = true →
      normalize_code (some s) = String.mk (stripNonDigits s.data)) ∧
    normalize_code (some "1234567890") = "1234567890" := by
  refine ⟨find_taric_isSome, ?_, by decide⟩
  intro s hacc
  have hne : stripNonDigits s.data ≠ [] := by
    intro hnil
    rw [hnil] at hacc
    exact absurd hacc (by decide)
  have h0 : s.data.isEmpty = false :=
    isEmpty_false_of_ne_nil _ (stripNonDigits_ne_nil_imp _ hne)
  have h1 : (stripNonDigits s.data).isEmpty = false := isEmpty_false_of_ne_nil _ hne
  have h2 : (taricLengths.find? (fun k => (stripNonDigits s.data).length == k)).isSome = true := by
    rw [find_taric_isSome]; exact hacc
  simp [normalize_code, h0, h1, h2]

theorem C8_witness : normalize_code (some "12345678") = "12345678" := by
  rw [C8_accepted_length_passthrough.2.1 "12345678" (by decide)]
  decide

/-- C10 is refuted: in "X1234509876Z 55" the only maximal ten-digit run is
at index 1 and is bounded by the non-digit letters X and Z, so the claimed
fallback applies, yet the code returns the twelve-digit stripped candidate
instead of that run (the letters are word characters, so the regex finds
no match). -/
theorem C10_cex_no_word_boundary :
    acceptLen (stripNonDigits ("X1234509876Z 55" : String).data).length = false ∧
    hasTenRun ("X1234509876Z 55" : String).data = true ∧
    digitRunAt ("X1234509876Z 55" : String).data 1 = true ∧
    normalize_code (some "X1234509876Z 55") = "123450987655" ∧
    normalize_code (some "X1234509876Z 55") ≠
      String.mk (seg10 ("X1234509876Z 55" : String).data 1) := by decide

/-- C10 amended: when the accepted-length test fails and the regex (runs
bounded by non-word characters or string boundaries) matches somewhere,
`normalize_code` returns the leftmost such match. -/
theorem C10_amended_leftmost_match (s : String)
    (hlen : acceptLen (stripNonDigits s.data).length = false)
    (hm : hasTenMatch s.data = true) :
    ∃ i, searchTen s.data = some i ∧ matchTenAt s.data i = true ∧
      (∀ j, j < i → matchTenAt s.data j = false) ∧
      normalize_code (some s) = String.mk (seg10 s.data i) := by
  simp only [hasTenMatch, Option.isSome_iff_exists] at hm
  obtain ⟨i, hs⟩ := hm
  obtain ⟨hmt, hmin⟩ := searchTen_eq_some _ _ hs
  exact ⟨i, hs, hmt, hmin, normalize_regex_branch s i hlen hs⟩

theorem C10_amended_witness : normalize_code (some "q 9876543210 w 8") = "9876543210" := by
  obtain ⟨i, hsi, _hm, _hmin, hres⟩ :=
    C10_amended_leftmost_match "q 9876543210 w 8" (by decide) (by decide)
  have h2 : searchTen ("q 9876543210 w 8" : String).data = some 2 := by decide
  rw [hsi] at h2
  injection h2 with hi
  subst hi
  rw [hres]
  decide

/-!
Embedding of the single-product and batch classification paths of
tullkod_model.py.  The completion service (the langchain chain built from
the fixed system prompt, the model and the string parser) is the external
collaborator: it is modelled as an oracle from the user-message payload to
either a response text or a raised service error (`Except`).
-/

/-- Python `x or ""` on an optional string: the empty string for an absent
or empty value, otherwise the value itself. -/
def pyOr : Option String → String
  | none => ""
  | some s => if s = "" then "" else s

/-- The user-message payload of the classification prompt template:
the serialized hierarchy and the three product fields, each field always
present under its fixed label. -/
def buildPayload (taricJson name desc comp : String) : String :=
  "JSON:\n" ++ taricJson ++ "\n\nProduktnamn: " ++ name ++
    "\nProduktbeskrivning: " ++ desc ++
    "\nProduktsammansättning / substanser: " ++ comp

/-- The classification environment: the serialized TARIC hierarchy and the
completion-service oracle (payload to response text, or a service error). -/
structure ClassifierEnv where
  taricJson : String
  oracle : String → Except String String

/-- The payload `classify_product` sends for the given optional fields. -/
def classifyPayload (env : ClassifierEnv) (name desc comp : Option String) : String :=
  buildPayload env.taricJson (pyOr name) (pyOr desc) (pyOr comp)

/-- The function classify_product: one completion call on the constructed payload,
normalized; a service error propagates. -/
def classify_product (env : ClassifierEnv) (name desc comp : Option String) :
    Except String String :=
  (env.oracle (classifyPayload env name desc comp)).map (fun raw => normalize_code (some raw))

/-- A spreadsheet cell: either the pandas missing value NaN (what an empty
cell of a read spreadsheet holds) or a text value. -/
inductive Cell where
  | na
  | text (s : String)
deriving DecidableEq

/-- Python `str` on a cell value: `str(float("nan"))` is the text "nan". -/
def pyStrCell : Cell → String
  | Cell.na => "nan"
  | Cell.text s => s

/-- A dataframe row: an association list from column name to cell. -/
abbrev Row := List (String × Cell)

/-- Pandas row.get of a column without the default applied yet:
the first cell stored under `col`, if the column is present. -/
def rowGet (row : Row) (col : String) : Option Cell :=
  (row.find? (fun p => p.1 == col)).map Prod.snd

/-- Python str of the row.get call with empty-string default: the string image of the cell when the column
is present (so "nan" for an empty cell), else the empty-string default. -/
def rowGetStr (row : Row) (col : String) : String :=
  match rowGet row col with
  | some v => pyStrCell v
  | none => ""

/-- The inner `_classify_row` of `add_tullkod_column`. -/
def classifyRow (env : ClassifierEnv) (nameCol descCol compCol : String) (row : Row) :
    Except String String :=
  classify_product env (some (rowGetStr row nameCol)) (some (rowGetStr row descCol))
    (some (rowGetStr row compCol))

/-- Column assignment `df[col] = value` restricted to one row: overwrite
every cell stored under `col`, or append the column when absent. -/
def setCol (row : Row) (col : String) (v : Cell) : Row :=
  if row.any (fun p => p.1 == col) then
    row.map (fun p => if p.1 == col then (p.1, v) else p)
  else row ++ [(col, v)]

/-- The function add_tullkod_column: classify every row (`df.apply` raises, and hence
aborts, on the first failing row) and write the codes into the output
column. -/
def add_tullkod_column (env : ClassifierEnv) (df : List Row)
    (nameCol descCol compCol outputCol : String) : Except String (List Row) :=
  (df.mapM (classifyRow env nameCol descCol compCol)).map
    (fun codes => (df.zip codes).map (fun rc => setCol rc.1 outputCol (Cell.text rc.2)))

/-! Lemmas about `Except`, `mapM` over `Except`, and column assignment. -/

theorem except_bind_ok {α β : Type} (a : α) (k : α → Except String β) :
    (Except.ok a >>= k : Except String β) = k a := rfl

theorem except_bind_error {α β : Type} (e : String) (k : α → Except String β) :
    (Except.error e >>= k : Except String β) = Except.error e := rfl

theorem except_map_error {α β : Type} (e : String) (f : α → β) :
    (Except.error e : Except String α).map f = Except.error e := rfl

theorem except_map_ok {α β : Type} (a : α) (f : α → β) :
    (Except.ok a : Except String α).map f = Except.ok (f a) := rfl

theorem except_map_eq_ok {α β : Type} (x : Except String α) (f : α → β) (b : β)
    (h : x.map f = Except.ok b) : ∃ a, x = Except.ok a ∧ b = f a := by
  cases x with
  | error e => rw [except_map_error] at h; cases h
  | ok a => rw [except_map_ok] at h; injection h with h2; exact ⟨a, rfl, h2.symm⟩

theorem mapM_error_of_mem {α β : Type} (f : α → Except String β) (l : List α)
    (a : α) (ha : a ∈ l) (e : String) (hf : f a = Except.error e) :
    ∃ e2, l.mapM f = Except.error e2 := by
  induction l with
  | nil => cases ha
  | cons b bs ih =>
    rw [List.mapM_cons]
    cases hb : f b with
    | error e3 => exact ⟨e3, rfl⟩
    | ok v =>
      cases ha with
      | head => rw [hf] at hb; cases hb
      | tail _ hmem =>
        obtain ⟨e2, h2⟩ := ih hmem
        exact ⟨e2, by simp only [except_bind_ok, h2, except_bind_error]⟩

theorem mapM_ok_parts {α β : Type} (f : α → Except String β) (a : α) (l : List α)
    (bs : List β) (h : (a :: l).mapM f = Except.ok bs) :
    ∃ v vs, f a = Except.ok v ∧ l.mapM f = Except.ok vs ∧ bs = v :: vs := by
  rw [List.mapM_cons] at h
  cases ha : f a with
  | error e =>
    rw [ha] at h
    simp only [except_bind_error] at h
    exact Except.noConfusion h
  | ok v =>
    rw [ha] at h
    simp only [except_bind_ok] at h
    cases hrest : l.mapM f with
    | error e =>
      rw [hrest] at h
      simp only [except_bind_error] at h
      exact Except.noConfusion h
    | ok vs =>
      rw [hrest] at h
      simp only [except_bind_ok] at h
      have h2 : Except.ok (v :: vs) = Except.ok bs := h
      injection h2 with h3
      exact ⟨v, vs, rfl, rfl, h3.symm⟩

theorem mapM_ok_length {α β : Type} (f : α → Except String β) (l : List α)
    (bs : List β) (h : l.mapM f = Except.ok bs) : bs.length = l.length := by
  induction l generalizing bs with
  | nil =>
    rw [List.mapM_nil] at h
    have h2 : Except.ok ([] : List β) = Except.ok bs := h
    injection h2 with h3
    rw [← h3]; rfl
  | cons a as ih =>
    obtain ⟨v, vs, _, hrest, hbs⟩ := mapM_ok_parts f a as bs h
    subst hbs
    simp [ih vs hrest]

theorem mapM_ok_get {α β : Type} (f : α → Except String β) (l : List α)
    (bs : List β) (h : l.mapM f = Except.ok bs) :
    ∀ i (hi : i < l.length) (hbi : i < bs.length),
      f (l.get ⟨i, hi⟩) = Except.ok (bs.get ⟨i, hbi⟩) := by
  induction l generalizing bs with
  | nil => intro i hi _; exact absurd hi (Nat.not_lt_zero i)
  | cons a as ih =>
    obtain ⟨v, vs, hv, hrest, hbs⟩ := mapM_ok_parts f a as bs h
    subst hbs
    intro i hi hbi
    cases i with
    | zero => exact hv
    | succ n => exact ih vs hrest n (Nat.lt_of_succ_lt_succ hi) (Nat.lt_of_succ_lt_succ hbi)

theorem rowGet_map_set_other (row : Row) (out col : String) (v : Cell) (hne : col ≠ out) :
    rowGet (row.map (fun p => if p.1 == out then (p.1, v) else p)) col = rowGet row col := by
  unfold rowGet
  induction row with
  | nil => rfl
  | cons q qs ih =>
    rw [List.map_cons]
    by_cases hqo : (q.1 == out) = true
    · have hqc : (q.1 == col) = false := by
        rw [beq_eq_false_iff_ne]
        intro hqcol
        apply hne
        rw [← hqcol]
        exact eq_of_beq hqo
      rw [if_pos hqo, List.find?_cons_of_neg _ (by simp [hqc]),
        List.find?_cons_of_neg _ (by simp [hqc])]
      exact ih
    · rw [if_neg hqo]
      by_cases hqc : (q.1 == col) = true
      · rw [@List.find?_cons_of_pos _ (fun p : String × Cell => p.1 == col) q _ hqc,
          @List.find?_cons_of_pos _ (fun p : String × Cell => p.1 == col) q _ hqc]
      · rw [@List.find?_cons_of_neg _ (fun p : String × Cell => p.1 == col) q _ hqc,
          @List.find?_cons_of_neg _ (fun p : String × Cell => p.1 == col) q _ hqc]
        exact ih

theorem rowGet_append_other (row : Row) (out col : String) (v : Cell) (hne : col ≠ out) :
    rowGet (row ++ [(out, v)]) col = rowGet row col := by
  unfold rowGet
  rw [List.find?_append]
  have h2 : ((out, v).1 == col) = false := beq_eq_false_iff_ne.mpr (fun h => hne h.symm)
  simp [List.find?_cons, h2]

theorem rowGet_map_set_self (row : Row) (out : String) (v : Cell)
    (hany : row.any (fun p => p.1 == out) = true) :
    rowGet (row.map (fun p => if p.1 == out then (p.1, v) else p)) out = some v := by
  unfold rowGet
  induction row with
  | nil => cases hany
  | cons q qs ih =>
    rw [List.map_cons]
    by_cases hqo : (q.1 == out) = true
    · rw [if_pos hqo, List.find?_cons_of_pos _ (by simpa using hqo)]
      rfl
    · have hqo2 : (q.1 == out) = false := by rwa [Bool.not_eq_true] at hqo
      have hany2 : qs.any (fun p => p.1 == out) = true := by
        simp only [List.any_cons, hqo2, Bool.false_or] at hany
        exact hany
      rw [if_neg hqo,
        @List.find?_cons_of_neg _ (fun p : String × Cell => p.1 == out) q _ hqo]
      exact ih hany2

theorem rowGet_append_self (row : Row) (out : String) (v : Cell)
    (hany : row.any (fun p => p.1 == out) = false) :
    rowGet (row ++ [(out, v)]) out = some v := by
  unfold rowGet
  rw [List.find?_append]
  have hnone : row.find? (fun p => p.1 == out) = none := by
    rw [List.find?_eq_none]
    intro x hx
    have h := List.any_eq_false.mp hany x hx
    simpa using h
  simp [hnone, List.find?_cons]

/-- Writing the output column leaves every other column of a row unchanged. -/
theorem rowGet_setCol_other (row : Row) (out col : String) (v : Cell) (hne : col ≠ out) :
    rowGet (setCol row out v) col = rowGet row col := by
  unfold setCol
  by_cases hany : row.any (fun p => p.1 == out) = true
  · rw [if_pos hany]
    exact rowGet_map_set_other row out col v hne
  · rw [if_neg hany]
    exact rowGet_append_other row out col v hne

/-- After writing the output column, reading it back gives the written cell. -/
theorem rowGet_setCol_self (row : Row) (out : String) (v : Cell) :
    rowGet (setCol row out v) out = some v := by
  unfold setCol
  by_cases hany : row.any (fun p => p.1 == out) = true
  · rw [if_pos hany]
    exact rowGet_map_set_self row out v hany
  · rw [if_neg hany]
    have hany2 : row.any (fun p => p.1 == out) = false := by
      rwa [Bool.not_eq_true] at hany
    exact rowGet_append_self row out v hany2

instance exceptDecEq {ε α : Type} [DecidableEq ε] [DecidableEq α] :
    DecidableEq (Except ε α) := fun x y =>
  match x, y with
  | Except.error e1, Except.error e2 =>
    if h : e1 = e2 then isTrue (by rw [h]) else isFalse (fun hc => h (Except.error.inj hc))
  | Except.error _, Except.ok _ => isFalse (fun hc => Except.noConfusion hc)
  | Except.ok _, Except.error _ => isFalse (fun hc => Except.noConfusion hc)
  | Except.ok a1, Except.ok a2 =>
    if h : a1 = a2 then isTrue (by rw [h]) else isFalse (fun hc => h (Except.ok.inj hc))

/-! Concrete fixtures for the batch claims. -/

/-- A three-row test table with one Name column per row. -/
def df3 : List Row :=
  [[("Name", Cell.text "A")], [("Name", Cell.text "B")], [("Name", Cell.text "C")]]

/-- An environment whose completion service fails exactly on the payload
of the middle row of `df3` and otherwise returns a fixed valid reply. -/
def env3 : ClassifierEnv :=
  ⟨"\x7b\x7d", fun p =>
    if p = buildPayload "\x7b\x7d" "B" "" "" then Except.error "ServiceUnavailable"
    else Except.ok "3004909099"⟩

/-- An environment with a trivial completion service, for payload facts. -/
def env4 : ClassifierEnv := ⟨"\x7b\x7d", fun _ => Except.ok ""⟩

/-- A row whose description cell is the pandas missing value (an empty
spreadsheet cell) and whose composition cell is the empty text. -/
def row4 : Row := [("Name", Cell.text "A"), ("Desc", Cell.na), ("Comp", Cell.text "")]

/-- An environment whose completion service always answers with a fixed
valid eight-digit code. -/
def env9 : ClassifierEnv := ⟨"\x7b\x7d", fun _ => Except.ok "30049099"⟩

/-- A two-row test table. -/
def df9 : List Row := [[("Name", Cell.text "A")], [("Name", Cell.text "B")]]

/-- The expected output table for `df9` under `env9`. -/
def table9 : List Row :=
  [[("Name", Cell.text "A"), ("Tullkod", Cell.text "30049099")],
   [("Name", Cell.text "B"), ("Tullkod", Cell.text "30049099")]]

/-! Claim theorems about the classification paths. -/

/-- C3 is refuted: with a completion service that fails only on row 2,
rows 1 and 3 classify fine in isolation, yet the batch call returns the
propagated service error and no output table at all — one failing row
aborts the classification of the remaining rows. -/
theorem C3_cex_batch_aborts :
    classifyRow env3 "Name" "Desc" "Comp" [("Name", Cell.text "A")] =
        Except.ok "3004909099" ∧
    classifyRow env3 "Name" "Desc" "Comp" [("Name", Cell.text "B")] =
        Except.error "ServiceUnavailable" ∧
    classifyRow env3 "Name" "Desc" "Comp" [("Name", Cell.text "C")] =
        Except.ok "3004909099" ∧
    add_tullkod_column env3 df3 "Name" "Desc" "Comp" "Tullkod" =
        Except.error "ServiceUnavailable" := by decide

/-- C3 amended: one failing row aborts the whole batch: whenever the
completion call of any row of the table fails, `add_tullkod_column`
returns a propagated error and produces no output table. -/
theorem C3_amended_row_failure_aborts (env : ClassifierEnv) (df : List Row)
    (nameCol descCol compCol outputCol : String) (r : Row) (hr : r ∈ df) (e : String)
    (hfail : classifyRow env nameCol descCol compCol r = Except.error e) :
    ∃ e2, add_tullkod_column env df nameCol descCol compCol outputCol = Except.error e2 := by
  obtain ⟨e2, h2⟩ :=
    mapM_error_of_mem (classifyRow env nameCol descCol compCol) df r hr e hfail
  refine ⟨e2, ?_⟩
  unfold add_tullkod_column
  rw [h2, except_map_error]

theorem C3_amended_witness :
    ∃ e2, add_tullkod_column env3 df3 "Name" "Desc" "Comp" "Tullkod" = Except.error e2 :=
  C3_amended_row_failure_aborts env3 df3 "Name" "Desc" "Comp" "Tullkod"
    [("Name", Cell.text "B")] (by decide) "ServiceUnavailable" (by decide)

/-- C4 is refuted on the batch path: an empty spreadsheet cell is the
pandas missing value, Python `str` turns it into the text "nan", and the
prompt payload for that row carries "nan" — not the empty string — as the
description contribution. -/
theorem C4_cex_nan_cell :
    rowGet row4 "Desc" = some Cell.na ∧
    rowGetStr row4 "Desc" = "nan" ∧
    classifyPayload env4 (some (rowGetStr row4 "Name")) (some (rowGetStr row4 "Desc"))
        (some (rowGetStr row4 "Comp")) = buildPayload "\x7b\x7d" "A" "nan" "" ∧
    buildPayload "\x7b\x7d" "A" "nan" "" ≠ buildPayload "\x7b\x7d" "A" "" "" := by decide

/-- C4 amended: in the single-product path an absent or empty field
contributes exactly the empty string to the payload and the field is never
omitted from the template; in the batch path a missing column contributes
the empty string and a text cell contributes its text, but an empty
(missing-value) spreadsheet cell contributes the placeholder text "nan". -/
theorem C4_amended_field_contributions :
    (∀ env : ClassifierEnv, ∀ d c : Option String,
      classifyPayload env none d c = classifyPayload env (some "") d c) ∧
    (∀ env : ClassifierEnv,
      classifyPayload env none none none = buildPayload env.taricJson "" "" "") ∧
    (∀ env : ClassifierEnv, ∀ n d c : Option String,
      classifyPayload env n d c = buildPayload env.taricJson (pyOr n) (pyOr d) (pyOr c)) ∧
    (∀ (row : Row) (col : String), rowGet row col = none → rowGetStr row col = "") ∧
    (∀ (row : Row) (col : String) (s : String),
      rowGet row col = some (Cell.text s) → rowGetStr row col = s) ∧
    (∀ (row : Row) (col : String), rowGet row col = some Cell.na → rowGetStr row col = "nan") := by
  refine ⟨?_, ?_, ?_, ?_, ?_, ?_⟩
  · intro env d c; rfl
  · intro env; rfl
  · intro env n d c; rfl
  · intro row col h; unfold rowGetStr; rw [h]
  · intro row col s h; unfold rowGetStr; rw [h]; rfl
  · intro row col h; unfold rowGetStr; rw [h]; rfl

theorem C4_amended_witness :
    rowGetStr ([] : Row) "Desc" = "" ∧ rowGetStr row4 "Name" = "A" ∧
      rowGetStr row4 "Desc" = "nan" ∧
      classifyPayload env4 none none none = buildPayload "\x7b\x7d" "" "" "" :=
  ⟨C4_amended_field_contributions.2.2.2.1 [] "Desc" rfl,
   C4_amended_field_contributions.2.2.2.2.1 row4 "Name" "A" (by decide),
   C4_amended_field_contributions.2.2.2.2.2 row4 "Desc" (by decide),
   C4_amended_field_contributions.2.1 env4⟩

/-- C9: when the batch call returns a table, it has one row per input row
in the same order, the output cell of row `i` is the classification of row
`i` alone (a function of that row only), the output column reads back the
written code, and every other column of every row is unchanged. -/
theorem C9_frame_per_row (env : ClassifierEnv) (df : List Row)
    (nameCol descCol compCol outputCol : String) (table : List Row)
    (h : add_tullkod_column env df nameCol descCol compCol outputCol = Except.ok table) :
    table.length = df.length ∧
    (∀ i (hi : i < df.length) (hti : i < table.length),
      ∃ code, classifyRow env nameCol descCol compCol (df.get ⟨i, hi⟩) = Except.ok code ∧
        table.get ⟨i, hti⟩ = setCol (df.get ⟨i, hi⟩) outputCol (Cell.text code)) ∧
    (∀ (row : Row) (v : Cell) (col : String), col ≠ outputCol →
      rowGet (setCol row outputCol v) col = rowGet row col) ∧
    (∀ (row : Row) (v : Cell), rowGet (setCol row outputCol v) outputCol = some v) := by
  unfold add_tullkod_column at h
  obtain ⟨codes, hcodes, htable⟩ := except_map_eq_ok _ _ _ h
  have hclen : codes.length = df.length := mapM_ok_length _ _ _ hcodes
  subst htable
  have hzlen :
      ((df.zip codes).map (fun rc => setCol rc.1 outputCol (Cell.text rc.2))).length
        = df.length := by
    simp [List.length_zip, hclen]
  refine ⟨hzlen, ?_, fun row v col hne => rowGet_setCol_other row outputCol col v hne,
    fun row v => rowGet_setCol_self row outputCol v⟩
  intro i hi hti
  have hci : i < codes.length := by rw [hclen]; exact hi
  refine ⟨codes.get ⟨i, hci⟩, mapM_ok_get _ _ _ hcodes i hi hci, ?_⟩
  simp only [List.get_eq_getElem, List.getElem_map, List.getElem_zip]

theorem C9_witness :
    add_tullkod_column env9 df9 "Name" "Desc" "Comp" "Tullkod" = Except.ok table9 ∧
      table9.length = df9.length :=
  ⟨by decide,
   (C9_frame_per_row env9 df9 "Name" "Desc" "Comp" "Tullkod" table9 (by decide)).1⟩

end Tullkod
